import Mathlib

/-!
# Verification of the `blockchain.py` ledger core

Shallow embedding of the repository's single source file `src/blockchain.py`:
the address ledger, transaction admission (`Blockchain.new_transaction`),
balance execution (`Blockchain.execute_transaction`), canonical block hashing
(`Blockchain.hash`, i.e. SHA-256 of the sorted-key JSON serialization),
proof of work (`Blockchain.proof_of_work` / `Blockchain.valid_proof`),
chain validation (`Blockchain.valid_chain`) and the consensus routine
(`Blockchain.resolve_conflicts`).

Machine-level conventions: Python integers are `Int`/`Nat` (arbitrary
precision in both languages, so no wrap-around modelling is needed except
inside SHA-256, where 32-bit words are `Nat` reduced `% 2^32`); Python `None`
is `Option.none`; a Python exception escaping a call is the `Except.error`
branch; all recursion is structural so every definition evaluates by kernel
reduction (`rfl` / `decide`).
-/

set_option maxRecDepth 100000

/-! ## SHA-256 (FIPS 180-4), over byte lists, 32-bit words as `Nat % 2^32`.

`hashlib.sha256(...).hexdigest()` is embedded by `Sha256.sha256hex`.
All recursions are structural (fuel-based where needed) so that concrete
digests reduce in the kernel. -/

namespace Sha256

/-- Truncate to a 32-bit word. -/
def w32 (n : Nat) : Nat := n % 4294967296

/-- Rotate the 32-bit word `x` right by `n` bit positions. -/
def rotr (n x : Nat) : Nat := w32 ((x >>> n) ||| (x <<< (32 - n)))

/-- Bitwise complement of a 32-bit word. -/
def bnot (x : Nat) : Nat := x ^^^ 4294967295

def bigSigma0 (x : Nat) : Nat := rotr 2 x ^^^ rotr 13 x ^^^ rotr 22 x
def bigSigma1 (x : Nat) : Nat := rotr 6 x ^^^ rotr 11 x ^^^ rotr 25 x
def smallSigma0 (x : Nat) : Nat := rotr 7 x ^^^ rotr 18 x ^^^ (x >>> 3)
def smallSigma1 (x : Nat) : Nat := rotr 17 x ^^^ rotr 19 x ^^^ (x >>> 10)

def ch (e f g : Nat) : Nat := (e &&& f) ^^^ (bnot e &&& g)
def maj (a b c : Nat) : Nat := (a &&& b) ^^^ (a &&& c) ^^^ (b &&& c)

/-- The 64 round constants of FIPS 180-4, written in decimal. -/
def K : List Nat :=
  [1116352408, 1899447441, 3049323471, 3921009573, 961987163, 1508970993,
   2453635748, 2870763221, 3624381080, 310598401, 607225278, 1426881987,
   1925078388, 2162078206, 2614888103, 3248222580, 3835390401, 4022224774,
   264347078, 604807628, 770255983, 1249150122, 1555081692, 1996064986,
   2554220882, 2821834349, 2952996808, 3210313671, 3336571891, 3584528711,
   113926993, 338241895, 666307205, 773529912, 1294757372, 1396182291,
   1695183700, 1986661051, 2177026350, 2456956037, 2730485921, 2820302411,
   3259730800, 3345764771, 3516065817, 3600352804, 4094571909, 275423344,
   430227734, 506948616, 659060556, 883997877, 958139571, 1322822218,
   1537002063, 1747873779, 1955562222, 2024104815, 2227730452, 2361852424,
   2428436474, 2756734187, 3204031479, 3329325298]

/-- The initial hash value of FIPS 180-4, written in decimal. -/
def H0 : List Nat :=
  [1779033703, 3144134277, 1013904242, 2773480762,
   1359893119, 2600822924, 528734635, 1541459225]

/-- Pad a byte message: append 0x80, zeros, then the 64-bit big-endian bit length. -/
def pad (msg : List Nat) : List Nat :=
  let l := msg.length
  let zeros := (120 - ((l + 1) % 64)) % 64
  msg ++ [128] ++ List.replicate zeros 0 ++
    (List.range 8).map (fun i => ((l * 8) >>> (8 * (7 - i))) % 256)

/-- Big-endian 32-bit words from bytes. -/
def toWords : List Nat → List Nat
  | b0 :: b1 :: b2 :: b3 :: rest =>
      ((b0 <<< 24) ||| (b1 <<< 16) ||| (b2 <<< 8) ||| b3) :: toWords rest
  | _ => []

/-- Split into 64-byte chunks (fuel-driven so it reduces in the kernel). -/
def chunks64 : Nat → List Nat → List (List Nat)
  | 0, _ => []
  | _ + 1, [] => []
  | fuel + 1, l => l.take 64 :: chunks64 fuel (l.drop 64)

/-- Extend a 16-word schedule by `fuel` further words. -/
def extendSchedule : Nat → List Nat → List Nat
  | 0, ws => ws
  | f + 1, ws =>
      let t := ws.length
      let w := w32 (smallSigma1 (ws.getD (t - 2) 0) + ws.getD (t - 7) 0 +
                    smallSigma0 (ws.getD (t - 15) 0) + ws.getD (t - 16) 0)
      extendSchedule f (ws ++ [w])

/-- The eight working variables. -/
structure Hs where
  a : Nat
  b : Nat
  c : Nat
  d : Nat
  e : Nat
  f : Nat
  g : Nat
  h : Nat

/-- One compression round. -/
def round (st : Hs) (k w : Nat) : Hs :=
  let t1 := w32 (st.h + bigSigma1 st.e + ch st.e st.f st.g + k + w)
  let t2 := w32 (bigSigma0 st.a + maj st.a st.b st.c)
  ⟨w32 (t1 + t2), st.a, st.b, st.c, w32 (st.d + t1), st.e, st.f, st.g⟩

/-- Run the 64 rounds, consuming constants and schedule in lockstep. -/
def roundsGo : List Nat → List Nat → Hs → Hs
  | k :: ks, w :: ws, st => roundsGo ks ws (round st k w)
  | _, _, st => st

/-- Compress one 64-byte chunk into the running hash value. -/
def compress (h : List Nat) (chunk : List Nat) : List Nat :=
  let ws := extendSchedule 48 (toWords chunk)
  let st := roundsGo K ws
    ⟨h.getD 0 0, h.getD 1 0, h.getD 2 0, h.getD 3 0,
     h.getD 4 0, h.getD 5 0, h.getD 6 0, h.getD 7 0⟩
  [w32 (h.getD 0 0 + st.a), w32 (h.getD 1 0 + st.b), w32 (h.getD 2 0 + st.c),
   w32 (h.getD 3 0 + st.d), w32 (h.getD 4 0 + st.e), w32 (h.getD 5 0 + st.f),
   w32 (h.getD 6 0 + st.g), w32 (h.getD 7 0 + st.h)]

/-- SHA-256 of a byte message, as eight 32-bit words. -/
def sha256words (msg : List Nat) : List Nat :=
  (chunks64 (pad msg).length (pad msg)).foldl compress H0

/-- Lower-case hex digit. -/
def hexDigit (n : Nat) : Char :=
  if n < 10 then Char.ofNat (48 + n) else Char.ofNat (87 + n)

/-- Render `d` hex digits of `n`, most significant first. -/
def natToHex : Nat → Nat → List Char
  | 0, _ => []
  | d + 1, n => natToHex d (n >>> 4) ++ [hexDigit (n % 16)]

/-- Words to a hex string. -/
def wordsToHex (ws : List Nat) : String :=
  String.mk (ws.foldr (fun w acc => natToHex 8 w ++ acc) [])

/-- UTF-8 encoding of a code point (Python `str.encode()`). -/
def utf8Encode (c : Nat) : List Nat :=
  if c < 128 then [c]
  else if c < 2048 then [192 + c / 64, 128 + c % 64]
  else if c < 65536 then [224 + c / 4096, 128 + (c / 64) % 64, 128 + c % 64]
  else [240 + c / 262144, 128 + (c / 4096) % 64, 128 + (c / 64) % 64, 128 + c % 64]

/-- UTF-8 bytes of a string. -/
def strBytes (s : String) : List Nat :=
  s.data.foldr (fun c acc => utf8Encode c.toNat ++ acc) []

/-- Embedding of `hashlib.sha256(s.encode()).hexdigest()`. -/
def sha256hex (s : String) : String := wordsToHex (sha256words (strBytes s))

end Sha256

/-! ## Data model: persisted / peer-JSON blocks

`blockchain.py` serializes a transaction as the dict
`{sender, recipient, amount, message, signature}` (`transactions_to_jsonSerializable`)
and a block as `{index, timestamp, proof, previous_hash, transactions}`
(`new_block` / `block_to_jsonSerializable`).  Peer chains arrive in exactly this
shape from `response.json()['chain']`.  Python/JSON numbers are `Int`,
`None`/`null` is `Option.none`; `previous_hash` is either a string digest or the
number `1` used for the genesis block, hence a sum type. -/

/-- A transaction in serialized (dict) form. -/
structure TxRec where
  sender : String
  recipient : String
  amount : Int
  message : Option String
  signature : Option String
deriving DecidableEq, Repr

/-- A block's `previous_hash` field: a digest string, or the genesis number `1`. -/
inductive PHash where
  | num (n : Int)
  | str (s : String)
deriving DecidableEq, Repr

/-- A block in serialized (dict) form. -/
structure Block where
  index : Int
  timestamp : Int
  proof : Int
  previous_hash : PHash
  transactions : List TxRec
deriving DecidableEq, Repr

/-! ## `json.dumps(block, sort_keys=True)` and `Blockchain.hash`

`json.dumps` with default separators renders `\x7b"k": v, "k2": v2\x7d`, keys
sorted; the block dict is modelled as an association list so that key order at
construction time is explicit and `sort_keys=True` is the sort below. -/

/-- JSON string escaping (backslash and double quote; the only special
characters occurring in this development). -/
def jsonEscape (s : String) : String :=
  String.mk (s.data.foldr
    (fun c acc =>
      if c = '\\' then '\\' :: '\\' :: acc
      else if c = '"' then '\\' :: '"' :: acc
      else c :: acc) [])

/-- A JSON string literal. -/
def dumpsStr (s : String) : String := "\"" ++ jsonEscape s ++ "\""

/-- A JSON string-or-null value (Python `str | None`). -/
def dumpsOptStr : Option String → String
  | none => "null"
  | some s => dumpsStr s

/-- Serialization of one transaction dict, keys already in sorted order
(`amount < message < recipient < sender < signature`). -/
def dumpsTxRec (t : TxRec) : String :=
  "\x7b\"amount\": " ++ toString t.amount ++
  ", \"message\": " ++ dumpsOptStr t.message ++
  ", \"recipient\": " ++ dumpsStr t.recipient ++
  ", \"sender\": " ++ dumpsStr t.sender ++
  ", \"signature\": " ++ dumpsOptStr t.signature ++ "\x7d"

/-- Comma-separated list body. -/
def dumpsTxListGo : List TxRec → String
  | [] => ""
  | [t] => dumpsTxRec t
  | t :: ts => dumpsTxRec t ++ ", " ++ dumpsTxListGo ts

/-- Serialization of a transaction list. -/
def dumpsTxList (ts : List TxRec) : String := "[" ++ dumpsTxListGo ts ++ "]"

/-- A value a block dict can hold: a number, a string, or the transactions list. -/
inductive Fval where
  | num (n : Int)
  | str (s : String)
  | txs (ts : List TxRec)
deriving DecidableEq, Repr

/-- Serialization of a block-field value. -/
def dumpsFval : Fval → String
  | .num n => toString n
  | .str s => dumpsStr s
  | .txs ts => dumpsTxList ts

/-- Code-point lexicographic comparison of character lists: the order in
which `sort_keys=True` arranges the key strings.  (Defined structurally so
that concrete serializations evaluate by kernel reduction.) -/
def charListLe : List Char → List Char → Bool
  | [], _ => true
  | _ :: _, [] => false
  | a :: as, b :: bs => if a = b then charListLe as bs else decide (a.toNat < b.toNat)

/-- Lexicographic string comparison by code points (Python string order on
the ASCII keys used here). -/
def strLe (a b : String) : Bool := charListLe a.data b.data

/-- Key order used by `sort_keys=True`. -/
def keyLe (a b : String × Fval) : Prop := strLe a.1 b.1 = true

instance : DecidableRel keyLe := fun a b => inferInstanceAs (Decidable (strLe a.1 b.1 = true))

/-- Strict key order: `keyLe` plus distinct keys.  A sorted list with
duplicate-free keys is sorted for this order, which pins it down uniquely. -/
def keyLt (a b : String × Fval) : Prop := keyLe a b ∧ a.1 ≠ b.1

/-- Body of a JSON object, keys assumed already sorted. -/
def dumpsPairsGo : List (String × Fval) → String
  | [] => ""
  | [(k, v)] => dumpsStr k ++ ": " ++ dumpsFval v
  | (k, v) :: rest => dumpsStr k ++ ": " ++ dumpsFval v ++ ", " ++ dumpsPairsGo rest

/-- Embedding of `json.dumps(d, sort_keys=True)` for a block dict given as an association
list in construction order. -/
def dumpsDict (kvs : List (String × Fval)) : String :=
  "\x7b" ++ dumpsPairsGo (List.insertionSort keyLe kvs) ++ "\x7d"

/-- SHA-256 of the sorted-key serialization of a block dict: the body of
`Blockchain.hash` on the dict representation. -/
def hashDict (kvs : List (String × Fval)) : String :=
  Sha256.sha256hex (dumpsDict kvs)

/-- The `previous_hash` field value. -/
def PHash.toFval : PHash → Fval
  | .num n => .num n
  | .str s => .str s

/-- A `Block` as the dict `new_block` constructs, in its insertion order
`index, timestamp, transactions, proof, previous_hash`. -/
def Block.toPairs (b : Block) : List (String × Fval) :=
  [("index", .num b.index), ("timestamp", .num b.timestamp),
   ("transactions", .txs b.transactions), ("proof", .num b.proof),
   ("previous_hash", b.previous_hash.toFval)]

namespace Blockchain

/-- Embedding of `Blockchain.hash`: SHA-256 hex digest of the sorted-key JSON dump. -/
def hash (b : Block) : String := hashDict b.toPairs

/-- Embedding of `Blockchain.valid_proof`: the digest of the concatenated decimal strings
must start with four `'0'` hex characters (`guess_hash[:4] == '0000'`). -/
def valid_proof (last_proof proof : Int) : Bool :=
  (Sha256.sha256hex (toString last_proof ++ toString proof)).take 4 == "0000"

/-- Embedding of `Blockchain.proof_of_work`: `proof = 0; while not valid_proof: proof += 1`.
The loop terminates exactly when a solution exists, so the embedding takes
that existence as a hypothesis and returns the least solution. -/
def proof_of_work (last_proof : Int)
    (h : ∃ p : Nat, valid_proof last_proof (p : Int) = true) : Nat :=
  Nat.find h

/-- Python `block['previous_hash'] == h`: a JSON value compared with a string
is equal only when it is that string (a number never equals a string). -/
def phEqStr : PHash → String → Bool
  | .num _, _ => false
  | .str s, h => s == h

/-- The `while current_index < len(chain)` walk of `valid_chain`, carrying
`last_block`. -/
def valid_chain_go (last : Block) : List Block → Bool
  | [] => true
  | b :: bs =>
    if !phEqStr b.previous_hash (hash last) then false
    else if !valid_proof last.proof b.proof then false
    else if b.timestamp < last.timestamp then false
    else valid_chain_go b bs

/-- Embedding of `Blockchain.valid_chain`.  Reading `last_block = chain[0]` raises `IndexError` on an
empty chain, hence `none` there; otherwise the boolean the loop returns. -/
def valid_chain : List Block → Option Bool
  | [] => none
  | b :: bs => some (valid_chain_go b bs)

end Blockchain

/-- The per-adjacent-pair requirement of chain validation, as a proposition:
hash linkage, proof-of-work validity, and non-decreasing timestamps. -/
def linkOk (p c : Block) : Prop :=
  Blockchain.phEqStr c.previous_hash (Blockchain.hash p) = true ∧
  Blockchain.valid_proof p.proof c.proof = true ∧
  p.timestamp ≤ c.timestamp

instance : DecidablePred fun pc : Block × Block => linkOk pc.1 pc.2 := by
  intro pc; unfold linkOk; infer_instance

/-! ## The live ledger state

`Address` objects live in the Python list `self.addresses` and are aliased
into transactions; the embedding replaces aliasing by the index into that
list (`ARef.addr i`), which is exactly the `senderIndex`/`recipientIndex`
the code stores next to each object.  The sentinel sender `'0'` keeps no
`Address` record (`ARef.sentinel`).  A Python exception escaping a method is
modelled by `Except.error` with the exception's class. -/

/-- An `Address` record: identity string and balance. -/
structure Address where
  address : String
  amount : Int
deriving DecidableEq, Repr

instance : Inhabited Address := ⟨⟨"", 0⟩⟩

/-- A resolved wallet reference: the sentinel string `'0'`, or the `Address`
object at index `i` of `self.addresses` (the object plus its stored index). -/
inductive ARef where
  | sentinel
  | addr (i : Nat)
deriving DecidableEq, Repr

/-- A live `Transaction` object.  `sender`/`recipient` carry what the
constructor's `(object, index)` pairs carry. -/
structure Transaction where
  sender : ARef
  recipient : ARef
  amount : Int
  message : Option String
  signature : Option String
  executed : Bool
deriving DecidableEq, Repr

/-- Python exception classes that can escape the embedded methods. -/
inductive PyErr where
  | attributeError
  | valueError
  | typeError
  | indexError
deriving DecidableEq, Repr

/-- The mutable node state: `self.addresses`, `self.current_transactions`,
`self.chain` (in its persisted/peer dict shape) and `self.nodes` (the peer
set, as the sequence iteration visits it). -/
structure BState where
  addresses : List Address
  current_transactions : List Transaction
  chain : List Block
  nodes : List String
deriving DecidableEq, Repr

namespace Blockchain

/-- Embedding of `Blockchain.get_address`: the string `"0"` resolves to the sentinel; otherwise the
first list entry with a matching identity; otherwise `AddressNotFound`
(`none` here, caught or propagated by each caller). -/
def get_address (addrs : List Address) (a : String) : Option ARef :=
  if a = "0" then some .sentinel
  else match addrs.findIdx? (fun ad => ad.address = a) with
       | some i => some (.addr i)
       | none => none

/-- Embedding of `Blockchain.getOrCreateAddress`: resolve, or append a fresh zero-balance
`Address` and return it with its index. -/
def getOrCreateAddress (addrs : List Address) (a : String) : ARef × List Address :=
  match get_address addrs a with
  | some r => (r, addrs)
  | none => (.addr addrs.length, addrs ++ [⟨a, 0⟩])

end Blockchain

/-- Embedding of `Transaction.is_valid`: invalid iff the sender is a real address with
balance strictly below the amount, or the amount equals zero.  (Note: the
code compares `self.amount == 0`, so negative amounts pass this check.)
The sender's balance is read through the ledger, reflecting the aliasing. -/
def Transaction.is_valid (addrs : List Address) (t : Transaction) : Bool :=
  !((match t.sender with
     | .sentinel => false
     | .addr i => decide ((addrs.getD i default).amount < t.amount)) ||
    (t.amount == 0))

/-- Membership test `address in (t.sender, t.recipient)` for a live pending
`Transaction` (object identity, i.e. equal references). -/
def involvesLive (r : ARef) (t : Transaction) : Bool :=
  decide (t.sender = r ∨ t.recipient = r)

/-- Membership test against a serialized chain transaction.  The code tries
attribute access first and falls back to `t['sender']`/`t['recipient']`
string comparison; a live `Address` object never equals a string, while the
sentinel `'0'` is itself a string. -/
def involvesRec (r : ARef) (t : TxRec) : Bool :=
  match r with
  | .sentinel => t.sender == "0" || t.recipient == "0"
  | .addr _ => false

namespace Blockchain

/-- Embedding of `Blockchain.getTransactionsByAddress` on an already-resolved wallet:
the pair (historical transactions from `self.chain`, pending transactions
from `self.current_transactions`). -/
def getTransactionsByAddress (s : BState) (r : ARef) : List TxRec × List Transaction :=
  (s.chain.foldr (fun b acc => b.transactions.filter (involvesRec r) ++ acc) [],
   s.current_transactions.filter (involvesLive r))

end Blockchain

/-- The duck-typed `transactions` argument of `Transaction.is_signature_valid`:
the replay path passes a list, while `new_transaction` passes the raw pair
returned by `getTransactionsByAddress`.  Python's `len` sees a 2-tuple as a
sequence of length 2. -/
inductive PySeq where
  | ofList : List Transaction → PySeq
  | ofPair : List TxRec × List Transaction → PySeq

/-- Python `len` on the duck-typed argument: list length, or 2 for a 2-tuple. -/
def PySeq.len : PySeq → Nat
  | .ofList l => l.length
  | .ofPair _ => 2

/-- Accumulating walk behind `pySplit`: splits at spaces, drops empty runs. -/
def pySplitGo : List Char → List Char → List String
  | [], acc => if acc.isEmpty then [] else [String.mk acc.reverse]
  | c :: cs, acc =>
    if c = ' ' then
      if acc.isEmpty then pySplitGo cs []
      else String.mk acc.reverse :: pySplitGo cs []
    else pySplitGo cs (c :: acc)

/-- Python `str.split()` on the space-separated strings used here. -/
def pySplit (s : String) : List String := pySplitGo s.data []

/-- Decimal digits accumulator behind `parsePyInt`. -/
def parseNatGo : List Char → Nat → Option Nat
  | [], acc => some acc
  | c :: cs, acc =>
    if c.isDigit then parseNatGo cs (acc * 10 + (c.toNat - 48)) else none

/-- Python `int(s)` on the decimal literals used here: an optional minus
sign followed by digits; anything else raises `ValueError` (`none`). -/
def parsePyInt (s : String) : Option Int :=
  match s.data with
  | [] => none
  | '-' :: cs => if cs.isEmpty then none else (parseNatGo cs 0).map (fun n => -(n : Int))
  | cs => (parseNatGo cs 0).map (fun n => (n : Int))

/-- Embedding of `a, b = map(int, parts)`: exactly two integer tokens, else `ValueError`. -/
def parseTwoInts (s : String) : Except PyErr (Int × Int) :=
  match (pySplit s).map parsePyInt with
  | [some a, some b] => .ok (a, b)
  | _ => .error .valueError

/-- Python `f'...\x7bx\x7d...'` of a `str | None` value: `None` prints as `"None"`. -/
def pyStrOpt : Option String → String
  | none => "None"
  | some s => s

/-- The ECDSA primitive `ecdsa.verify((r, s), message, (x, y))`, kept
abstract: the embedding is parameterized by it. -/
def EcdsaVerify : Type := Int × Int → String → Int × Int → Bool

/-- Embedding of `Transaction.is_signature_valid`.  Sentinel senders skip the check.
Otherwise: split/parse the signature (`None.split()` raises
`AttributeError`, non-integer or non-pair tokens raise `ValueError`), parse
the sender identity as `x y`, take `len(transactions)` as the transaction
count, build the message
`f'\x7bsender\x7d \x7brecipient\x7d \x7bmessage\x7d \x7bamount\x7d \x7bcount\x7d'`
(a sentinel recipient would raise `AttributeError` at `.address`), and call
`ecdsa.verify`. -/
def Transaction.is_signature_valid (verify : EcdsaVerify) (addrs : List Address)
    (t : Transaction) (transactions : PySeq) : Except PyErr Bool :=
  match t.sender with
  | .sentinel => .ok true
  | .addr i => do
    let sigStr ← match t.signature with
      | none => .error PyErr.attributeError
      | some sg => .ok sg
    let rs ← parseTwoInts sigStr
    let senderAddr := (addrs.getD i default).address
    let xy ← parseTwoInts senderAddr
    let sender_transactions := transactions.len
    let recStr ← match t.recipient with
      | .sentinel => .error PyErr.attributeError
      | .addr j => .ok (addrs.getD j default).address
    let msg := senderAddr ++ " " ++ recStr ++ " " ++ pyStrOpt t.message ++ " " ++
               toString t.amount ++ " " ++ toString sender_transactions
    .ok (verify rs msg xy)

namespace Blockchain

/-- Sender side of `execute_transaction`:
`self.addresses[transaction.senderIndex].amount -= transaction.amount`,
skipped for the sentinel sender. -/
def debitAddrs (addrs : List Address) (t : Transaction) : List Address :=
  match t.sender with
  | .sentinel => addrs
  | .addr i =>
      addrs.set i
        { addrs.getD i default with
          amount := (addrs.getD i default).amount - t.amount }

/-- Recipient side of `execute_transaction`:
`self.addresses[transaction.recipientIndex].amount += transaction.amount`. -/
def creditAddrs (addrs : List Address) (j : Nat) (amount : Int) : List Address :=
  addrs.set j
    { addrs.getD j default with amount := (addrs.getD j default).amount + amount }

/-- Embedding of `Blockchain.execute_transaction`: debit a real sender at its stored index,
then credit the recipient at its stored index (a sentinel recipient's index
is `None`, so the list subscript raises `TypeError` — after the debit), and
mark the transaction executed.  The run model stops at an uncaught
exception, so the post-debit state of the error branch is not carried. -/
def execute_transaction (s : BState) (t : Transaction) :
    Except PyErr (Transaction × BState) :=
  let addrs1 := debitAddrs s.addresses t
  match t.recipient with
  | .sentinel => .error PyErr.typeError
  | .addr j =>
      .ok ({ t with executed := true },
           { s with addresses := creditAddrs addrs1 j t.amount })

/-- Embedding of `Blockchain.new_transaction`.  Resolve the sender (`AddressNotFound` is
caught: `return None`); resolve or create the recipient; build the
transaction; fetch the sender's transactions; if `is_valid` and
`is_signature_valid` both hold (short-circuit `and`), execute it, append it
to the pending pool and return the next block index (`0` on an empty chain,
else `last_block['index'] + 1`); otherwise return `None`. -/
def new_transaction (verify : EcdsaVerify) (s : BState) (sender recipient : String)
    (amount : Int) (signature message : Option String) :
    Except PyErr (Option Int × BState) :=
  match get_address s.addresses sender with
  | none => .ok (none, s)
  | some sref =>
    let rpair := getOrCreateAddress s.addresses recipient
    let s1 : BState := { s with addresses := rpair.2 }
    let t : Transaction :=
      ⟨sref, rpair.1, amount, message, signature, false⟩
    let sender_transactions := getTransactionsByAddress s1 sref
    if t.is_valid s1.addresses then
      match t.is_signature_valid verify s1.addresses (.ofPair sender_transactions) with
      | .error e => .error e
      | .ok false => .ok (none, s1)
      | .ok true =>
        match execute_transaction s1 t with
        | .error e => .error e
        | .ok (t2, s2) =>
          let s3 : BState :=
            { s2 with current_transactions := s2.current_transactions ++ [t2] }
          match s3.chain.getLast? with
          | none => .ok (some 0, s3)
          | some b => .ok (some (b.index + 1), s3)
    else .ok (none, s1)

end Blockchain

/-- One request to `new_transaction` (the HTTP layer's arguments). -/
structure Call where
  sender : String
  recipient : String
  amount : Int
  signature : Option String
  message : Option String
deriving DecidableEq, Repr

/-- A sequence of `new_transaction` requests, threading the state; stops at
the first uncaught exception. -/
def runNewTxs (verify : EcdsaVerify) : BState → List Call → Except PyErr BState
  | s, [] => .ok s
  | s, c :: cs =>
    match Blockchain.new_transaction verify s c.sender c.recipient c.amount
        c.signature c.message with
    | .error e => .error e
    | .ok (_, s2) => runNewTxs verify s2 cs

/-- Total amount the pool credits to the address at ledger index `j`. -/
def poolCredit (pool : List Transaction) (j : Nat) : Int :=
  ((pool.filter fun t => decide (t.recipient = ARef.addr j)).map Transaction.amount).sum

/-- Total amount the pool debits from the address at ledger index `j`. -/
def poolDebit (pool : List Transaction) (j : Nat) : Int :=
  ((pool.filter fun t => decide (t.sender = ARef.addr j)).map Transaction.amount).sum

/-- Every pending transaction's stored sender/recipient indices point inside
the ledger (admission constructs them that way). -/
def RefsBounded (s : BState) : Prop :=
  ∀ t ∈ s.current_transactions,
    (∀ j, t.recipient = ARef.addr j → j < s.addresses.length) ∧
    (∀ j, t.sender = ARef.addr j → j < s.addresses.length)

/-- The bookkeeping identity: each balance equals the pool's credits minus
its debits at that index.  When a run starts from an empty ledger and empty
pool, the pool is exactly the list of admitted transactions, so this is the
spec's "initial balance (0) plus received minus sent over exactly the
admitted transactions". -/
def BalancesMatchPool (s : BState) : Prop :=
  ∀ j, j < s.addresses.length →
    (s.addresses.getD j default).amount =
      poolCredit s.current_transactions j - poolDebit s.current_transactions j

/-- Non-negativity of every ledger balance. -/
def BalancesNonneg (s : BState) : Prop :=
  ∀ j, j < s.addresses.length → 0 ≤ (s.addresses.getD j default).amount

namespace Blockchain

/-- Embedding of `Blockchain.resolve_conflicts`.  The peer set is visited in iteration
order; `fetch` models `requests.get(...)`: `some (length, chain)` for an
HTTP 200 response, `none` otherwise.  As written, both the
`if new_chain: ... return True` block and the final `return False` sit
inside the `for` body, so the method always returns during its first
iteration; the `elif not (length < max_length and self.valid_chain(chain))`
branch appends the node to `invalid_chains` (short-circuit: `valid_chain` is
only called when `length < max_length`, and its `IndexError` on an empty
chain propagates). -/
def resolve_conflicts (fetch : String → Option (Nat × List Block)) (s : BState) :
    Except PyErr (Bool × List String × BState) :=
  match s.nodes with
  | [] => .ok (false, [], s)
  | node :: _ =>
    match fetch node with
    | none => .ok (false, [], s)
    | some (length, chain) =>
      let max_length := s.chain.length
      if length > max_length then
        match valid_chain chain with
        | none => .error .indexError
        | some true => .ok (true, [], { s with chain := chain })
        | some false => .ok (false, [node], s)
      else if length < max_length then
        match valid_chain chain with
        | none => .error .indexError
        | some true => .ok (false, [], s)
        | some false => .ok (false, [node], s)
      else .ok (false, [node], s)

/-- Embedding of `Blockchain.get_balance`: the resolved wallet's balance, or a not-found
sentinel.  (`get_balance('0')` would raise `AttributeError` at
`'0'.amount`.) -/
def get_balance (s : BState) (a : String) : Except PyErr (Option Int) :=
  match get_address s.addresses a with
  | none => .ok none
  | some .sentinel => .error .attributeError
  | some (.addr i) => .ok (some (s.addresses.getD i default).amount)

end Blockchain

/-! ## Shared concrete data for the claim theorems -/

/-- An ECDSA oracle that rejects everything; the concrete evaluations below
never reach it. -/
def noVerify : EcdsaVerify := fun _ _ _ => false

/-- A genesis-style block (`previous_hash = 1`, `proof = 100`). -/
def blockA : Block := ⟨0, 0, 100, .num 1, []⟩

/-- A valid successor of `blockA`: its `previous_hash` is the SHA-256 digest
of `blockA`'s sorted-key JSON dump, and `sha256("10035293")` starts with
four zero hex digits, so `valid_proof 100 35293` holds. -/
def blockB : Block :=
  ⟨1, 1, 35293,
   .str "f33f6cdafa4fa2a804023da537cde353e2e02ee4f509c9ea78a70d345a7a9835", []⟩

/-- A block held by a peer as a single-block (hence trivially valid) chain. -/
def blockP1 : Block := ⟨0, 5, 7, .str "x", []⟩

/-- Peer responses for the consensus scenario: peer `P1` serves a valid
single-block chain of length 1, peer `P2` serves the valid two-block chain
`[blockA, blockB]` of length 2. -/
def peerFetch : String → Option (Nat × List Block) := fun n =>
  if n = "P1" then some (1, [blockP1])
  else if n = "P2" then some (2, [blockA, blockB])
  else none

/-- The local node for the consensus scenario: a one-block chain and the two
peers above, `P1` first in iteration order. -/
def stateC4 : BState := ⟨[], [], [blockA], ["P1", "P2"]⟩

/-- A ledger with one funded sender whose identity parses as a public key,
plus the recipient record `getOrCreateAddress` would have appended. -/
def stateSig : BState := ⟨[⟨"12 34", 5⟩, ⟨"B", 0⟩], [], [], []⟩

/-- The transaction `new_transaction` builds for
`sender="12 34", recipient="B", amount=1, signature="1 2"` in `stateSig`. -/
def txSig : Transaction := ⟨.addr 0, .addr 1, 1, none, some "1 2", false⟩

/-- Test vector: SHA-256 of `"abc"` (FIPS 180-4 appendix). -/
theorem sha256hex_abc :
    Sha256.sha256hex "abc" =
      "ba7816bf8f01cfea414140de5dae2223b00361a396177a9cb410ff61f20015ad" := by
  decide

/-- Test vector: SHA-256 of the empty string. -/
theorem sha256hex_empty :
    Sha256.sha256hex "" =
      "e3b0c44298fc1c149afbf4c8996fb92427ae41e4649b934ca495991b7852b855" := by
  decide

/-! ## Chain validation: claims C5 and C10 -/

/-- One step of the validation loop succeeds exactly when the pair condition
`linkOk` holds and the rest of the walk succeeds. -/
theorem valid_chain_go_iff (last : Block) (bs : List Block) :
    Blockchain.valid_chain_go last bs = true ↔ List.Chain' linkOk (last :: bs) := by
  induction bs generalizing last with
  | nil => simp [Blockchain.valid_chain_go]
  | cons b bs ih =>
    rw [List.chain'_cons]
    by_cases h1 : Blockchain.phEqStr b.previous_hash (Blockchain.hash last) = true <;>
      by_cases h2 : Blockchain.valid_proof last.proof b.proof = true <;>
        by_cases h3 : b.timestamp < last.timestamp <;>
          simp [Blockchain.valid_chain_go, h1, h2, h3, linkOk, ih, not_lt] <;>
            omega

/-- C5: `valid_chain` returns `true` exactly when every adjacent pair
`(previous, current)` from the second block onward satisfies
`current.previous_hash == hash(previous)`,
`valid_proof(previous.proof, current.proof)` and
`current.timestamp >= previous.timestamp` (and the chain is non-empty so the
walk can start); in particular every single-block chain validates. -/
theorem C5_valid_chain_iff :
    (∀ c : List Block,
      Blockchain.valid_chain c = some true ↔ c ≠ [] ∧ List.Chain' linkOk c) ∧
    (∀ b : Block, Blockchain.valid_chain [b] = some true) := by
  constructor
  · intro c
    cases c with
    | nil => simp [Blockchain.valid_chain]
    | cons b bs => simp [Blockchain.valid_chain, valid_chain_go_iff]
  · intro b
    rfl

/-- C10: `valid_chain` reads `chain[0]` unconditionally, so on the empty
chain it raises `IndexError` (returns no boolean); on any non-empty chain
the index access succeeds and a boolean is returned. -/
theorem C10_valid_chain_empty (c : List Block) (hc : c ≠ []) :
    Blockchain.valid_chain [] = none ∧ (Blockchain.valid_chain c).isSome = true := by
  refine ⟨rfl, ?_⟩
  cases c with
  | nil => exact absurd rfl hc
  | cons b bs => rfl

/-- Witness for C10 at the concrete one-block chain `[blockA]`. -/
theorem C10_witness :
    Blockchain.valid_chain [] = none ∧
    (Blockchain.valid_chain [blockA]).isSome = true :=
  C10_valid_chain_empty [blockA] (by simp)

/-! ## Proof of work: claim C6 -/

/-- A concrete solution for `last_proof = 100`: `sha256("10035293")` begins
with `"0000"`. -/
theorem pow_solution_100 :
    ∃ n : Nat, Blockchain.valid_proof 100 (n : Int) = true :=
  ⟨35293, by decide⟩

/-- C6: `valid_proof(last_proof, proof)` holds iff the SHA-256 hex digest of
the concatenated decimal strings begins with four zero hex characters; and
whenever a solution exists, `proof_of_work(last_proof)` returns a valid
proof below which no natural number is valid (the smallest solution), and
its value depends only on `last_proof` (determinism). -/
theorem C6_proof_of_work :
    (∀ lp p : Int, Blockchain.valid_proof lp p = true ↔
        (Sha256.sha256hex (toString lp ++ toString p)).take 4 = "0000") ∧
    (∀ (lp : Int) (h : ∃ n : Nat, Blockchain.valid_proof lp (n : Int) = true),
      Blockchain.valid_proof lp ((Blockchain.proof_of_work lp h : Nat) : Int) = true ∧
      (∀ m : Nat, m < Blockchain.proof_of_work lp h →
        Blockchain.valid_proof lp (m : Int) = false) ∧
      ∀ h2 : ∃ n : Nat, Blockchain.valid_proof lp (n : Int) = true,
        Blockchain.proof_of_work lp h = Blockchain.proof_of_work lp h2) := by
  refine ⟨fun lp p => ?_, fun lp h => ⟨Nat.find_spec h, fun m hm => ?_, fun h2 => rfl⟩⟩
  · simp [Blockchain.valid_proof]
  · have hmin := Nat.find_min h hm
    simpa using hmin

/-- Witness for C6 at `last_proof = 100`. -/
theorem C6_witness :
    Blockchain.valid_proof 100
      ((Blockchain.proof_of_work 100 pow_solution_100 : Nat) : Int) = true :=
  (C6_proof_of_work.2 100 pow_solution_100).1

/-! ## Canonical hashing: claim C9 -/

/-- Characters with equal code points are equal. -/
theorem char_toNat_inj {a b : Char} (h : a.toNat = b.toNat) : a = b :=
  Char.ext (UInt32.ext h)

/-- Totality of the lexicographic comparison. -/
theorem charListLe_total :
    ∀ as bs : List Char, charListLe as bs = true ∨ charListLe bs as = true := by
  intro as
  induction as with
  | nil => intro bs; left; rfl
  | cons c cs ih =>
    intro bs
    cases bs with
    | nil => right; rfl
    | cons d ds =>
      by_cases hcd : c = d
      · subst hcd
        rcases ih ds with h | h
        · left; simpa [charListLe] using h
        · right; simpa [charListLe] using h
      · have hdc : d ≠ c := fun he => hcd he.symm
        have hne : c.toNat ≠ d.toNat := fun he => hcd (char_toNat_inj he)
        rcases Nat.lt_or_ge c.toNat d.toNat with h | h
        · left; simp [charListLe, hcd, h]
        · have hlt : d.toNat < c.toNat := lt_of_le_of_ne h fun he => hne he.symm
          right; simp [charListLe, hdc, hlt]

/-- Transitivity of the lexicographic comparison. -/
theorem charListLe_trans : ∀ as bs cs : List Char,
    charListLe as bs = true → charListLe bs cs = true → charListLe as cs = true := by
  intro as
  induction as with
  | nil => intro bs cs _ _; rfl
  | cons a as ih =>
    intro bs cs h1 h2
    cases bs with
    | nil => simp [charListLe] at h1
    | cons b bs =>
      cases cs with
      | nil => simp [charListLe] at h2
      | cons c cs =>
        by_cases hab : a = b <;> by_cases hbc : b = c
        · subst hab; subst hbc
          simp only [charListLe, if_pos rfl] at h1 h2 ⊢
          exact ih _ _ h1 h2
        · subst hab
          simp [charListLe, hbc] at h2 ⊢
          simp [h2]
        · subst hbc
          simp [charListLe, hab] at h1 ⊢
          simp [h1]
        · simp [charListLe, hab] at h1
          simp [charListLe, hbc] at h2
          have hlt : a.toNat < c.toNat := lt_trans h1 h2
          have hac : a ≠ c := fun he => by rw [he] at hlt; exact lt_irrefl _ hlt
          simp [charListLe, hac, hlt]

/-- Antisymmetry of the lexicographic comparison. -/
theorem charListLe_antisymm : ∀ as bs : List Char,
    charListLe as bs = true → charListLe bs as = true → as = bs := by
  intro as
  induction as with
  | nil =>
    intro bs h1 h2
    cases bs with
    | nil => rfl
    | cons b bs => simp [charListLe] at h2
  | cons a as ih =>
    intro bs h1 h2
    cases bs with
    | nil => simp [charListLe] at h1
    | cons b bs =>
      by_cases hab : a = b
      · subst hab
        simp only [charListLe, if_pos rfl] at h1 h2
        rw [ih bs h1 h2]
      · have hba : b ≠ a := fun he => hab he.symm
        simp [charListLe, hab] at h1
        simp [charListLe, hba] at h2
        omega

/-- Antisymmetry of the string comparison. -/
theorem strLe_antisymm {a b : String} (h1 : strLe a b = true)
    (h2 : strLe b a = true) : a = b := by
  have hd := charListLe_antisymm a.data b.data h1 h2
  cases a; cases b; exact congrArg String.mk hd

/-- Totality of the key order, as the class `sorted_insertionSort` needs. -/
theorem keyLe_total : IsTotal (String × Fval) keyLe :=
  ⟨fun a b => charListLe_total a.1.data b.1.data⟩

/-- Transitivity of the key order. -/
theorem keyLe_trans : IsTrans (String × Fval) keyLe :=
  ⟨fun a b c h1 h2 => charListLe_trans a.1.data b.1.data c.1.data h1 h2⟩

/-- Antisymmetry of the strict key order (vacuously: both directions force
equal keys, contradicting strictness). -/
theorem keyLt_antisymm : IsAntisymm (String × Fval) keyLt :=
  ⟨fun _ _ h1 h2 => (h1.2 (strLe_antisymm h1.1 h2.1)).elim⟩

/-- A `keyLe`-sorted association list with duplicate-free keys is strictly
sorted by key. -/
theorem sorted_keyLt_of_nodup (l : List (String × Fval))
    (hs : List.Sorted keyLe l) (hnd : (l.map Prod.fst).Nodup) :
    List.Sorted keyLt l := by
  induction l with
  | nil => exact List.sorted_nil
  | cons a l ih =>
    rw [List.sorted_cons] at hs ⊢
    rw [List.map_cons, List.nodup_cons] at hnd
    refine ⟨fun b hb => ⟨hs.1 b hb, fun he => hnd.1 ?_⟩, ih hs.2 hnd.2⟩
    exact he ▸ List.mem_map_of_mem Prod.fst hb

/-- C9: the canonical hash is key-order independent: two block dicts holding
the same key-value pairs (a permutation, with no duplicate keys) serialize
to the same sorted-key JSON and hash to the same digest; and hashing a
`Block` value is the deterministic function `hashDict` of its field pairs,
so re-hashing an unchanged block always yields the same digest. -/
theorem C9_hash_key_order (kvs1 kvs2 : List (String × Fval))
    (hperm : kvs1.Perm kvs2) (hnd : (kvs1.map Prod.fst).Nodup) :
    hashDict kvs1 = hashDict kvs2 ∧
    ∀ b : Block, Blockchain.hash b = hashDict b.toPairs := by
  refine ⟨?_, fun b => rfl⟩
  haveI := keyLe_total
  haveI := keyLe_trans
  haveI := keyLt_antisymm
  have hs1 := List.sorted_insertionSort keyLe kvs1
  have hs2 := List.sorted_insertionSort keyLe kvs2
  have hp1 : (List.insertionSort keyLe kvs1).Perm kvs1 :=
    List.perm_insertionSort keyLe kvs1
  have hp2 : (List.insertionSort keyLe kvs2).Perm kvs2 :=
    List.perm_insertionSort keyLe kvs2
  have hperm12 : (List.insertionSort keyLe kvs1).Perm (List.insertionSort keyLe kvs2) :=
    (hp1.trans hperm).trans hp2.symm
  have hnd1 : ((List.insertionSort keyLe kvs1).map Prod.fst).Nodup :=
    ((hp1.map Prod.fst).nodup_iff).mpr hnd
  have hnd2 : ((List.insertionSort keyLe kvs2).map Prod.fst).Nodup :=
    ((hperm12.map Prod.fst).nodup_iff).mp hnd1
  have heq : List.insertionSort keyLe kvs1 = List.insertionSort keyLe kvs2 :=
    List.eq_of_perm_of_sorted (r := keyLt) hperm12
      (sorted_keyLt_of_nodup _ hs1 hnd1) (sorted_keyLt_of_nodup _ hs2 hnd2)
  unfold hashDict dumpsDict
  rw [heq]

/-- Witness for C9: the genesis block dict written in two different key
orders hashes identically. -/
theorem C9_witness :
    hashDict [("timestamp", Fval.num 0), ("index", Fval.num 0),
              ("transactions", Fval.txs []), ("proof", Fval.num 100),
              ("previous_hash", Fval.num 1)] =
      hashDict [("index", Fval.num 0), ("timestamp", Fval.num 0),
                ("transactions", Fval.txs []), ("proof", Fval.num 100),
                ("previous_hash", Fval.num 1)] :=
  (C9_hash_key_order _ _ (List.Perm.swap _ _ _) (by decide)).1

/-! ## Signature binding: claim C3 -/

/-- C3 (code bug): inside admission the signature is verified against the
message `"sender recipient message amount count"`, but the count is
`len(transactions)` where `transactions` is the raw *pair*
`(historical, pending)` returned by `getTransactionsByAddress`, so it is the
constant 2.  Concretely: the sender `"12 34"` has no prior transactions at
all (`getTransactionsByAddress` yields `([], [])`), yet the verified message
is `"12 34 B None 1 2"` — ending in 2, not 0 — for every ECDSA oracle. -/
theorem C3_signature_count_bug (v : EcdsaVerify) :
    Blockchain.getTransactionsByAddress stateSig (.addr 0) = ([], []) ∧
    Transaction.is_signature_valid v stateSig.addresses txSig
        (.ofPair (Blockchain.getTransactionsByAddress stateSig (.addr 0))) =
      .ok (v (1, 2) "12 34 B None 1 2" (12, 34)) :=
  ⟨rfl, rfl⟩

/-! ## Consensus: claim C4 -/

/-- C4 (code bug): in `resolve_conflicts` both the `if new_chain:` block and
the final `return False` sit inside the `for` loop, so only the first peer
in iteration order is ever fetched.  Here `P1` serves a *valid* chain of
the same length as the local one and `P2` serves a valid strictly longer
chain, yet the call returns `(False, ["P1"])`: the local chain is kept, the
longer valid chain of `P2` is never examined, and `P1` lands in the
rejected list even though its chain passes validation. -/
theorem C4_resolve_conflicts_bug :
    Blockchain.resolve_conflicts peerFetch stateC4 =
      .ok (false, ["P1"], stateC4) ∧
    Blockchain.valid_chain [blockA, blockB] = some true ∧
    stateC4.chain.length < 2 ∧
    Blockchain.valid_chain [blockP1] = some true :=
  ⟨rfl, by decide, by decide, rfl⟩

/-! ## Admission rejection conditions: claims C1 and C7 -/

/-- Bound extraction: a resolved real address index lies inside the ledger. -/
theorem get_address_addr_lt (addrs : List Address) (a : String) (i : Nat)
    (h : Blockchain.get_address addrs a = some (.addr i)) : i < addrs.length := by
  unfold Blockchain.get_address at h
  split at h
  · simp at h
  · split at h
    · rename_i j hj
      have hjl := (List.findIdx?_eq_some_iff_findIdx_eq.mp hj).1
      have hji : j = i := by simpa using h
      omega
    · simp at h

/-- Shape of `getOrCreateAddress`: the ledger is unchanged or extended by one
fresh zero-balance record. -/
theorem getOrCreateAddress_shape (addrs : List Address) (a : String) :
    (Blockchain.getOrCreateAddress addrs a).2 = addrs ∨
    (Blockchain.getOrCreateAddress addrs a).2 = addrs ++ [⟨a, 0⟩] := by
  unfold Blockchain.getOrCreateAddress
  split
  · left; rfl
  · right; rfl

/-- Counterexample to C1 as stated: the code checks `amount == 0`, not
`amount <= 0`, so the coinbase call with `amount = -1` — which the claim
says must be rejected — is admitted: it returns index `0`, appends to the
pending pool, and drives the recipient's balance to `-1`. -/
theorem C1_counterexample :
    (-1 : Int) ≤ 0 ∧
    Blockchain.new_transaction noVerify ⟨[], [], [], []⟩ "0" "B" (-1) none none =
      .ok (some 0, ⟨[⟨"B", -1⟩], [⟨.sentinel, .addr 0, -1, none, none, true⟩], [], []⟩) :=
  ⟨by decide, rfl⟩

/-- C1 (amended): with a resolvable sender the transaction is rejected —
`None` returned, pending pool and chain untouched, every existing balance
untouched (at most a fresh zero-balance recipient record is appended) —
whenever `amount == 0`, and whenever the sender is a real `Address` whose
balance is strictly below `amount`. -/
theorem C1_amended (v : EcdsaVerify) (s : BState) (sender recipient : String)
    (amount : Int) (sig msg : Option String) (sref : ARef)
    (hres : Blockchain.get_address s.addresses sender = some sref)
    (hrej : amount = 0 ∨
      ∃ i, sref = .addr i ∧ (s.addresses.getD i default).amount < amount) :
    ∃ s2, Blockchain.new_transaction v s sender recipient amount sig msg =
        .ok (none, s2) ∧
      s2.current_transactions = s.current_transactions ∧
      s2.chain = s.chain ∧
      (s2.addresses = s.addresses ∨ s2.addresses = s.addresses ++ [⟨recipient, 0⟩]) := by
  have hvalid : Transaction.is_valid (Blockchain.getOrCreateAddress s.addresses recipient).2
      ⟨sref, (Blockchain.getOrCreateAddress s.addresses recipient).1, amount, msg, sig, false⟩ = false := by
    rcases hrej with hz | ⟨i, hsref, hi⟩
    · subst hz
      unfold Transaction.is_valid
      simp
    · subst hsref
      have hlt := get_address_addr_lt s.addresses sender i hres
      have hbal : ((Blockchain.getOrCreateAddress s.addresses recipient).2.getD i
          default).amount < amount := by
        rcases getOrCreateAddress_shape s.addresses recipient with he | he <;> rw [he]
        · exact hi
        · rw [List.getD_append _ _ _ _ hlt]
          exact hi
      have hdec : decide (((Blockchain.getOrCreateAddress s.addresses recipient).2.getD i
          default).amount < amount) = true := decide_eq_true hbal
      unfold Transaction.is_valid
      simp only [hdec, Bool.true_or, Bool.not_true]
  refine ⟨{ s with addresses := (Blockchain.getOrCreateAddress s.addresses recipient).2 }, ?_, rfl, rfl, ?_⟩
  · unfold Blockchain.new_transaction
    rw [hres]
    simp only [hvalid, Bool.false_eq_true, if_false]
  · exact getOrCreateAddress_shape s.addresses recipient

/-- Witness for C1 (amended): sender `"A"` with balance 5 attempting to send
6 to a fresh `"B"` is rejected with no state damage. -/
theorem C1_witness :
    ∃ s2, Blockchain.new_transaction noVerify ⟨[⟨"A", 5⟩], [], [], []⟩ "A" "B" 6 none none =
        .ok (none, s2) ∧
      s2.current_transactions = ([] : List Transaction) ∧
      s2.chain = ([] : List Block) ∧
      (s2.addresses = [⟨"A", 5⟩] ∨ s2.addresses = [⟨"A", 5⟩] ++ [⟨"B", 0⟩]) :=
  C1_amended noVerify ⟨[⟨"A", 5⟩], [], [], []⟩ "A" "B" 6 none none (.addr 0)
    (by rfl) (.inr ⟨0, rfl, by decide⟩)

/-- Counterexample to C7 as stated: a missing signature on a transaction
from the funded real sender `"A"` raises `AttributeError`
(`None.split()`) out of `new_transaction` instead of returning `None`. -/
theorem C7_counterexample :
    Blockchain.new_transaction noVerify ⟨[⟨"A", 5⟩], [], [], []⟩ "A" "B" 1 none none =
      .error .attributeError := rfl

/-- C7 (amended): the rejection causes the validation logic itself decides —
unknown sender, failed `is_valid` (zero amount or insufficient balance), or
a signature that parses but fails verification — all return the sentinel
`None` without raising; only a missing or malformed signature string (or an
unparsable sender key) escapes as an exception. -/
theorem C7_amended (v : EcdsaVerify) (s : BState) (sender recipient : String)
    (amount : Int) (sig msg : Option String) :
    (Blockchain.get_address s.addresses sender = none →
      Blockchain.new_transaction v s sender recipient amount sig msg = .ok (none, s)) ∧
    (∀ sref rref addrs1,
      Blockchain.get_address s.addresses sender = some sref →
      Blockchain.getOrCreateAddress s.addresses recipient = (rref, addrs1) →
      (Transaction.is_valid addrs1 ⟨sref, rref, amount, msg, sig, false⟩ = false →
        Blockchain.new_transaction v s sender recipient amount sig msg =
          .ok (none, { s with addresses := addrs1 })) ∧
      (Transaction.is_signature_valid v addrs1 ⟨sref, rref, amount, msg, sig, false⟩
          (.ofPair (Blockchain.getTransactionsByAddress
            { s with addresses := addrs1 } sref)) = .ok false →
        Blockchain.new_transaction v s sender recipient amount sig msg =
          .ok (none, { s with addresses := addrs1 }))) := by
  constructor
  · intro hnone
    unfold Blockchain.new_transaction
    rw [hnone]
  · intro sref rref addrs1 hres hrp
    constructor
    · intro hvalid
      unfold Blockchain.new_transaction
      rw [hres, hrp]
      simp only [hvalid, Bool.false_eq_true, if_false]
    · intro hsig
      unfold Blockchain.new_transaction
      rw [hres, hrp]
      by_cases hvalid : Transaction.is_valid addrs1 ⟨sref, rref, amount, msg, sig, false⟩ = true
      · simp only [hvalid, if_true, hsig]
      · simp only [Bool.not_eq_true] at hvalid
        simp only [hvalid, Bool.false_eq_true, if_false]

/-- Witness for C7 (amended): an unknown sender is rejected with `None`, the
state untouched, and no exception. -/
theorem C7_witness :
    Blockchain.new_transaction noVerify ⟨[], [], [], []⟩ "X" "B" 1 none none =
      .ok (none, ⟨[], [], [], []⟩) :=
  (C7_amended noVerify ⟨[], [], [], []⟩ "X" "B" 1 none none).1 rfl

/-! ## Returned block index: claim C8 -/

/-- Counterexample to C8 as stated: on a chain whose last block carries
index 7 (chain length 1 — such chains reach a node through the persisted
chain file or a consensus swap, since `valid_chain` never inspects
indices), an admitted coinbase transaction returns `8`, not the chain
length `1`. -/
theorem C8_counterexample :
    (Blockchain.new_transaction noVerify ⟨[], [], [⟨7, 0, 100, .num 1, []⟩], []⟩
        "0" "B" 1 none none).map Prod.fst = .ok (some 8) ∧
    ([(⟨7, 0, 100, .num 1, []⟩ : Block)] : List Block).length = 1 ∧
    (8 : Int) ≠ 1 :=
  ⟨rfl, rfl, by decide⟩

/-- C8 (amended): an admitted transaction returns `0` when the chain is
empty and `last_block['index'] + 1` otherwise; this equals the chain length
(the position of the next forged block) exactly when the last block's index
is `length - 1`, as holds for every chain `new_block` itself builds. -/
theorem C8_amended (v : EcdsaVerify) (s : BState) (sender recipient : String)
    (amount : Int) (sig msg : Option String) (r : Int) (s2 : BState)
    (hadm : Blockchain.new_transaction v s sender recipient amount sig msg =
      .ok (some r, s2)) :
    (s.chain = [] → r = 0) ∧
    (∀ b : Block, s.chain.getLast? = some b → r = b.index + 1) ∧
    ((∀ b ∈ s.chain.getLast?, b.index = (s.chain.length : Int) - 1) →
      r = (s.chain.length : Int)) := by
  unfold Blockchain.new_transaction at hadm
  split at hadm
  · simp at hadm
  · simp only [] at hadm
    split at hadm
    · -- is_valid holds
      split at hadm
      · simp at hadm
      · simp at hadm
      · -- signature accepted, transaction executed
        split at hadm
        · simp at hadm
        · rename_i t2 s2mid hexec
          have hchain : s2mid.chain = s.chain := by
            unfold Blockchain.execute_transaction at hexec
            split at hexec
            · simp at hexec
            · simp only [Except.ok.injEq, Prod.mk.injEq] at hexec
              rw [← hexec.2]
          rw [hchain] at hadm
          split at hadm
          · rename_i heq
            simp only [Except.ok.injEq, Prod.mk.injEq, Option.some.injEq] at hadm
            have hr : r = 0 := hadm.1.symm
            have hnil : s.chain = [] := List.getLast?_eq_none_iff.mp heq
            subst hr
            refine ⟨fun _ => rfl, ?_, ?_⟩
            · intro b hb
              rw [heq] at hb
              simp at hb
            · intro _
              rw [hnil]
              rfl
          · rename_i b heq
            simp only [Except.ok.injEq, Prod.mk.injEq, Option.some.injEq] at hadm
            have hr : r = b.index + 1 := hadm.1.symm
            have hne : s.chain ≠ [] := by
              intro hn
              rw [hn] at heq
              simp at heq
            refine ⟨fun hnil => absurd hnil hne, ?_, ?_⟩
            · intro b2 hb2
              rw [heq] at hb2
              simp only [Option.some.injEq] at hb2
              rw [hr, hb2]
            · intro hidx
              have hb := hidx b heq
              have hpos : 0 < s.chain.length := List.length_pos.mpr hne
              rw [hr, hb]
              omega
    · simp at hadm

/-- Witness for C8 (amended): the empty-chain coinbase admission returns 0,
which is the (empty) chain's length. -/
theorem C8_witness :
    ((([] : List Block) = []) → (0 : Int) = 0) ∧
    (∀ b : Block, ([] : List Block).getLast? = some b → (0 : Int) = b.index + 1) ∧
    ((∀ b ∈ ([] : List Block).getLast?, b.index = (([] : List Block).length : Int) - 1) →
      (0 : Int) = (([] : List Block).length : Int)) :=
  C8_amended noVerify ⟨[], [], [], []⟩ "0" "B" 1 none none 0
    ⟨[⟨"B", 1⟩], [⟨.sentinel, .addr 0, 1, none, none, true⟩], [], []⟩ rfl

/-! ## Balance bookkeeping: claim C2 -/

/-- Appending a transaction adds its amount to the credit of its recipient's
index and nothing elsewhere. -/
theorem poolCredit_append (pool : List Transaction) (t : Transaction) (j : Nat) :
    poolCredit (pool ++ [t]) j =
      poolCredit pool j + (if t.recipient = ARef.addr j then t.amount else 0) := by
  unfold poolCredit
  rw [List.filter_append]
  by_cases h : t.recipient = ARef.addr j <;> simp [h, List.filter]

/-- Appending a transaction adds its amount to the debit of its sender's
index and nothing elsewhere. -/
theorem poolDebit_append (pool : List Transaction) (t : Transaction) (j : Nat) :
    poolDebit (pool ++ [t]) j =
      poolDebit pool j + (if t.sender = ARef.addr j then t.amount else 0) := by
  unfold poolDebit
  rw [List.filter_append]
  by_cases h : t.sender = ARef.addr j <;> simp [h, List.filter]

/-- A pool crediting nothing at `j` sums to zero there. -/
theorem poolCredit_eq_zero (pool : List Transaction) (j : Nat)
    (h : ∀ t ∈ pool, t.recipient ≠ ARef.addr j) : poolCredit pool j = 0 := by
  unfold poolCredit
  rw [List.filter_eq_nil_iff.mpr]
  · rfl
  · intro t ht
    simpa using h t ht

/-- A pool debiting nothing at `j` sums to zero there. -/
theorem poolDebit_eq_zero (pool : List Transaction) (j : Nat)
    (h : ∀ t ∈ pool, t.sender ≠ ARef.addr j) : poolDebit pool j = 0 := by
  unfold poolDebit
  rw [List.filter_eq_nil_iff.mpr]
  · rfl
  · intro t ht
    simpa using h t ht

/-- Length is preserved by the credit update. -/
theorem creditAddrs_length (addrs : List Address) (jr : Nat) (amount : Int) :
    (Blockchain.creditAddrs addrs jr amount).length = addrs.length := by
  unfold Blockchain.creditAddrs
  exact List.length_set addrs jr _

/-- Length is preserved by the debit update. -/
theorem debitAddrs_length (addrs : List Address) (t : Transaction) :
    (Blockchain.debitAddrs addrs t).length = addrs.length := by
  unfold Blockchain.debitAddrs
  cases t.sender <;> simp

/-- Pointwise description of the credit update. -/
theorem creditAddrs_getD (addrs : List Address) (jr : Nat) (amount : Int)
    (hjr : jr < addrs.length) (j : Nat) :
    (Blockchain.creditAddrs addrs jr amount).getD j default =
      if jr = j then { addrs.getD jr default with
                       amount := (addrs.getD jr default).amount + amount }
      else addrs.getD j default := by
  unfold Blockchain.creditAddrs
  rw [List.getD_eq_getElem?_getD, List.getElem?_set]
  by_cases h : jr = j
  · subst h
    simp [hjr]
  · simp [h, List.getD_eq_getElem?_getD]

/-- Pointwise description of the debit update. -/
theorem debitAddrs_getD (addrs : List Address) (t : Transaction)
    (hs : ∀ i, t.sender = ARef.addr i → i < addrs.length) (j : Nat) :
    (Blockchain.debitAddrs addrs t).getD j default =
      if t.sender = ARef.addr j then
        { addrs.getD j default with
          amount := (addrs.getD j default).amount - t.amount }
      else addrs.getD j default := by
  unfold Blockchain.debitAddrs
  cases hsen : t.sender with
  | sentinel => simp
  | addr i =>
    have hi : i < addrs.length := hs i hsen
    rw [List.getD_eq_getElem?_getD, List.getElem?_set]
    by_cases hij : i = j
    · subst hij
      simp [hi]
    · simp [hij, List.getD_eq_getElem?_getD]

/-- A recipient reference produced by `getOrCreateAddress` points inside the
resulting ledger. -/
theorem getOrCreateAddress_ref (addrs : List Address) (a : String) :
    ∀ j, (Blockchain.getOrCreateAddress addrs a).1 = ARef.addr j →
      j < (Blockchain.getOrCreateAddress addrs a).2.length := by
  unfold Blockchain.getOrCreateAddress
  split
  · rename_i r hr
    intro j hj
    subst hj
    exact get_address_addr_lt addrs a j hr
  · intro j hj
    simp only at hj
    simp only [List.length_append, List.length_cons, List.length_nil]
    cases hj
    omega

/-- The rejection-shape state (ledger possibly extended by a fresh
zero-balance record, everything else untouched) preserves all three
invariants. -/
theorem inv_after_reject (s : BState) (a : String)
    (hrb : RefsBounded s) (hbm : BalancesMatchPool s) :
    RefsBounded { s with addresses := (Blockchain.getOrCreateAddress s.addresses a).2 } ∧
    BalancesMatchPool { s with addresses := (Blockchain.getOrCreateAddress s.addresses a).2 } ∧
    (BalancesNonneg s →
      BalancesNonneg { s with addresses := (Blockchain.getOrCreateAddress s.addresses a).2 }) := by
  rcases getOrCreateAddress_shape s.addresses a with he | he <;> rw [he]
  · exact ⟨hrb, hbm, fun hnn => hnn⟩
  · refine ⟨?_, ?_, ?_⟩
    · intro t ht
      obtain ⟨h1, h2⟩ := hrb t ht
      refine ⟨fun j hj => ?_, fun j hj => ?_⟩ <;>
        simp only [List.length_append, List.length_cons, List.length_nil]
      · have := h1 j hj; omega
      · have := h2 j hj; omega
    · intro j hj
      simp only [List.length_append, List.length_cons, List.length_nil] at hj
      by_cases hlt : j < s.addresses.length
      · rw [List.getD_append _ _ _ _ hlt]
        exact hbm j hlt
      · have hj2 : j = s.addresses.length := by omega
        subst hj2
        rw [List.getD_append_right _ _ _ _ (le_refl _)]
        have hc0 : poolCredit s.current_transactions s.addresses.length = 0 :=
          poolCredit_eq_zero _ _ fun t ht hc =>
            absurd ((hrb t ht).1 _ hc) (lt_irrefl _)
        have hd0 : poolDebit s.current_transactions s.addresses.length = 0 :=
          poolDebit_eq_zero _ _ fun t ht hc =>
            absurd ((hrb t ht).2 _ hc) (lt_irrefl _)
        simp [hc0, hd0]
    · intro hnn j hj
      simp only [List.length_append, List.length_cons, List.length_nil] at hj
      by_cases hlt : j < s.addresses.length
      · rw [List.getD_append _ _ _ _ hlt]
        exact hnn j hlt
      · have hj2 : j = s.addresses.length := by omega
        subst hj2
        rw [List.getD_append_right _ _ _ _ (le_refl _)]
        simp

/-- Executing an admitted transaction (debit at the sender's index, credit at
the recipient's index, append to the pool) preserves reference bounds and
the bookkeeping identity; and it preserves non-negativity provided the
transaction passed `is_valid` (so a real sender had sufficient balance) and
its amount is non-negative. -/
theorem inv_after_execute (addrs : List Address) (pool : List Transaction)
    (chain : List Block) (nodes : List String)
    (sref : ARef) (jr : Nat) (amount : Int) (msg sig : Option String)
    (hsb : ∀ i, sref = ARef.addr i → i < addrs.length)
    (hjr : jr < addrs.length)
    (hrb : RefsBounded ⟨addrs, pool, chain, nodes⟩)
    (hbm : BalancesMatchPool ⟨addrs, pool, chain, nodes⟩) :
    RefsBounded ⟨Blockchain.creditAddrs
        (Blockchain.debitAddrs addrs ⟨sref, ARef.addr jr, amount, msg, sig, false⟩) jr amount,
      pool ++ [⟨sref, ARef.addr jr, amount, msg, sig, true⟩], chain, nodes⟩ ∧
    BalancesMatchPool ⟨Blockchain.creditAddrs
        (Blockchain.debitAddrs addrs ⟨sref, ARef.addr jr, amount, msg, sig, false⟩) jr amount,
      pool ++ [⟨sref, ARef.addr jr, amount, msg, sig, true⟩], chain, nodes⟩ ∧
    (Transaction.is_valid addrs ⟨sref, ARef.addr jr, amount, msg, sig, false⟩ = true →
      0 ≤ amount → BalancesNonneg ⟨addrs, pool, chain, nodes⟩ →
      BalancesNonneg ⟨Blockchain.creditAddrs
          (Blockchain.debitAddrs addrs ⟨sref, ARef.addr jr, amount, msg, sig, false⟩) jr amount,
        pool ++ [⟨sref, ARef.addr jr, amount, msg, sig, true⟩], chain, nodes⟩) := by
  have hjrD : jr < (Blockchain.debitAddrs addrs
      ⟨sref, ARef.addr jr, amount, msg, sig, false⟩).length := by
    rw [debitAddrs_length]; exact hjr
  have hsb2 : ∀ i, (⟨sref, ARef.addr jr, amount, msg, sig, false⟩ : Transaction).sender =
      ARef.addr i → i < addrs.length := fun i hi => hsb i hi
  refine ⟨?_, ?_, ?_⟩
  · unfold RefsBounded
    intro u hu
    rcases List.mem_append.mp hu with hu | hu
    · obtain ⟨g1, g2⟩ := hrb u hu
      refine ⟨fun j hj => ?_, fun j hj => ?_⟩ <;>
        simp only [creditAddrs_length, debitAddrs_length]
      · exact g1 j hj
      · exact g2 j hj
    · have hu2 : u = ⟨sref, ARef.addr jr, amount, msg, sig, true⟩ := by
        simpa using hu
      subst hu2
      refine ⟨fun j hj => ?_, fun j hj => ?_⟩ <;>
        simp only [creditAddrs_length, debitAddrs_length]
      · cases hj
        exact hjr
      · exact hsb j hj
  · unfold BalancesMatchPool
    intro j hj
    simp only [creditAddrs_length, debitAddrs_length] at hj
    have hb := hbm j hj
    by_cases h1 : jr = j
    · subst h1
      by_cases h2 : sref = ARef.addr jr
      · subst h2
        simp only [creditAddrs_getD _ _ _ hjrD jr, if_pos rfl,
          debitAddrs_getD _ _ hsb2 jr, poolCredit_append, poolDebit_append]
        simp at hb ⊢
        all_goals omega
      · simp only [creditAddrs_getD _ _ _ hjrD jr, if_pos rfl,
          debitAddrs_getD _ _ hsb2 jr, poolCredit_append, poolDebit_append]
        simp [h2] at hb ⊢
        all_goals omega
    · by_cases h2 : sref = ARef.addr j
      · subst h2
        simp only [creditAddrs_getD _ _ _ hjrD j, if_neg h1,
          debitAddrs_getD _ _ hsb2 j, poolCredit_append, poolDebit_append]
        simp [h1] at hb ⊢
        all_goals omega
      · simp only [creditAddrs_getD _ _ _ hjrD j, if_neg h1,
          debitAddrs_getD _ _ hsb2 j, poolCredit_append, poolDebit_append]
        simp [h1, h2] at hb ⊢
        all_goals omega
  · intro hval hge hnn0
    have hsender_ok : ∀ i, sref = ARef.addr i →
        amount ≤ (addrs.getD i default).amount := by
      intro i hi
      subst hi
      unfold Transaction.is_valid at hval
      have hv2 : (decide ((addrs.getD i default).amount < amount) ||
          (amount == 0)) = false := by
        simpa using hval
      simp only [Bool.or_eq_false_iff, decide_eq_false_iff_not, not_lt] at hv2
      exact hv2.1
    unfold BalancesNonneg
    intro j hj
    simp only [creditAddrs_length, debitAddrs_length] at hj
    have hb := hnn0 j hj
    by_cases h1 : jr = j
    · subst h1
      by_cases h2 : sref = ARef.addr jr
      · have hs2 := hsender_ok jr h2
        subst h2
        simp only [creditAddrs_getD _ _ _ hjrD jr, if_pos rfl,
          debitAddrs_getD _ _ hsb2 jr]
        simp at hb hs2 ⊢
        all_goals omega
      · simp only [creditAddrs_getD _ _ _ hjrD jr, if_pos rfl,
          debitAddrs_getD _ _ hsb2 jr]
        simp [h2] at hb ⊢
        all_goals omega
    · by_cases h2 : sref = ARef.addr j
      · have hs2 := hsender_ok j h2
        subst h2
        simp only [creditAddrs_getD _ _ _ hjrD j, if_neg h1,
          debitAddrs_getD _ _ hsb2 j]
        simp at hb hs2 ⊢
        all_goals omega
      · simp only [creditAddrs_getD _ _ _ hjrD j, if_neg h1,
          debitAddrs_getD _ _ hsb2 j]
        simp [h1, h2] at hb ⊢
        all_goals omega

/-- One `new_transaction` call preserves the reference bounds and the
bookkeeping identity, and (for a non-negative requested amount) the
non-negativity of all balances. -/
theorem new_transaction_preserves (v : EcdsaVerify) (s : BState)
    (sender recipient : String) (amount : Int) (sig msg : Option String)
    (r : Option Int) (s2 : BState)
    (hstep : Blockchain.new_transaction v s sender recipient amount sig msg =
      .ok (r, s2))
    (hrb : RefsBounded s) (hbm : BalancesMatchPool s) :
    RefsBounded s2 ∧ BalancesMatchPool s2 ∧
    (0 ≤ amount → BalancesNonneg s → BalancesNonneg s2) := by
  have hrej := inv_after_reject s recipient hrb hbm
  unfold Blockchain.new_transaction at hstep
  split at hstep
  · simp only [Except.ok.injEq, Prod.mk.injEq] at hstep
    obtain ⟨-, hs2⟩ := hstep
    subst hs2
    exact ⟨hrb, hbm, fun _ hnn => hnn⟩
  · rename_i sref hres
    simp only [] at hstep
    split at hstep
    · rename_i hvalid
      split at hstep
      · simp at hstep
      · simp only [Except.ok.injEq, Prod.mk.injEq] at hstep
        obtain ⟨-, hs2⟩ := hstep
        subst hs2
        exact ⟨hrej.1, hrej.2.1, fun _ hnn => hrej.2.2 hnn⟩
      · rename_i hsig
        split at hstep
        · simp at hstep
        · rename_i t2 s2mid hexec
          have hmain : RefsBounded
                { s2mid with current_transactions := s2mid.current_transactions ++ [t2] } ∧
              BalancesMatchPool
                { s2mid with current_transactions := s2mid.current_transactions ++ [t2] } ∧
              (0 ≤ amount → BalancesNonneg s → BalancesNonneg
                { s2mid with current_transactions := s2mid.current_transactions ++ [t2] }) := by
            unfold Blockchain.execute_transaction at hexec
            split at hexec
            · simp at hexec
            · rename_i jr hrecip
              have hrecip2 : (Blockchain.getOrCreateAddress s.addresses recipient).1 =
                  ARef.addr jr := hrecip
              simp only [Except.ok.injEq, Prod.mk.injEq] at hexec
              obtain ⟨ht2, hsmid⟩ := hexec
              subst ht2
              subst hsmid
              rw [hrecip2] at hvalid
              have hsb1 : ∀ i, sref = ARef.addr i →
                  i < (Blockchain.getOrCreateAddress s.addresses recipient).2.length := by
                intro i hi
                subst hi
                have h0 := get_address_addr_lt s.addresses sender i hres
                rcases getOrCreateAddress_shape s.addresses recipient with he | he <;>
                  rw [he]
                · exact h0
                · simp only [List.length_append, List.length_cons, List.length_nil]
                  omega
              have hjr1 : jr < (Blockchain.getOrCreateAddress s.addresses recipient).2.length :=
                getOrCreateAddress_ref s.addresses recipient jr hrecip2
              have happ := inv_after_execute
                (Blockchain.getOrCreateAddress s.addresses recipient).2
                s.current_transactions s.chain s.nodes sref jr amount msg sig
                hsb1 hjr1 hrej.1 hrej.2.1
              refine ⟨?_, ?_, fun hge hnn => ?_⟩
              · have h1 := happ.1
                rw [hrecip2]
                exact h1
              · have h1 := happ.2.1
                rw [hrecip2]
                exact h1
              · have h1 := happ.2.2 hvalid hge (hrej.2.2 hnn)
                rw [hrecip2]
                exact h1
          split at hstep <;>
            (simp only [Except.ok.injEq, Prod.mk.injEq] at hstep
             obtain ⟨-, hs2⟩ := hstep
             subst hs2
             exact hmain)
    · simp only [Except.ok.injEq, Prod.mk.injEq] at hstep
      obtain ⟨-, hs2⟩ := hstep
      subst hs2
      exact ⟨hrej.1, hrej.2.1, fun _ hnn => hrej.2.2 hnn⟩


/-- A whole exception-free run of `new_transaction` calls preserves the
invariants; non-negativity additionally needs every requested amount to be
non-negative. -/
theorem runNewTxs_preserves (v : EcdsaVerify) (calls : List Call) (s sF : BState)
    (hrun : runNewTxs v s calls = .ok sF)
    (hrb : RefsBounded s) (hbm : BalancesMatchPool s) :
    (RefsBounded sF ∧ BalancesMatchPool sF) ∧
    ((∀ c ∈ calls, 0 ≤ c.amount) → BalancesNonneg s → BalancesNonneg sF) := by
  induction calls generalizing s with
  | nil =>
    unfold runNewTxs at hrun
    simp only [Except.ok.injEq] at hrun
    subst hrun
    exact ⟨⟨hrb, hbm⟩, fun _ h => h⟩
  | cons c cs ih =>
    unfold runNewTxs at hrun
    split at hrun
    · simp at hrun
    · rename_i r s2 hstep
      have hpres := new_transaction_preserves v s c.sender c.recipient c.amount
        c.signature c.message r s2 hstep hrb hbm
      have hrest := ih s2 hrun hpres.1 hpres.2.1
      refine ⟨hrest.1, fun hge hnn => ?_⟩
      exact hrest.2 (fun c2 hc2 => hge c2 (List.mem_cons_of_mem c hc2))
        (hpres.2.2 (hge c (List.mem_cons_self c cs)) hnn)

/-- Counterexample to C2 as stated: from the empty ledger, the single call
`new_transaction('0', 'B', -1)` is admitted (negative amounts pass
`is_valid`), leaving address `B` with balance `-1` — a negative balance. -/
theorem C2_counterexample :
    runNewTxs noVerify ⟨[], [], [], []⟩ [⟨"0", "B", -1, none, none⟩] =
      .ok ⟨[⟨"B", -1⟩], [⟨.sentinel, .addr 0, -1, none, none, true⟩], [], []⟩ ∧
    Blockchain.get_balance
      ⟨[⟨"B", -1⟩], [⟨.sentinel, .addr 0, -1, none, none, true⟩], [], []⟩ "B" =
      .ok (some (-1)) ∧
    (-1 : Int) < 0 :=
  ⟨rfl, rfl, by decide⟩

/-- C2 (amended): after any exception-free sequence of `new_transaction`
calls from an empty ledger and empty pending pool, every address's balance
equals 0 plus the amounts it received minus the amounts it sent, summed
over exactly the admitted transactions (the final pending pool); and if
every requested amount is non-negative, no balance is ever negative.
(Without that restriction an admitted negative amount drives a balance
negative, as the counterexample shows.) -/
theorem C2_amended (v : EcdsaVerify) (calls : List Call) (s0 sF : BState)
    (h0a : s0.addresses = []) (h0p : s0.current_transactions = [])
    (hrun : runNewTxs v s0 calls = .ok sF) :
    BalancesMatchPool sF ∧
    ((∀ c ∈ calls, 0 ≤ c.amount) → BalancesNonneg sF) := by
  have hrb : RefsBounded s0 := by
    intro t ht
    rw [h0p] at ht
    simp at ht
  have hbm : BalancesMatchPool s0 := by
    intro j hj
    rw [h0a] at hj
    simp at hj
  have hnn : BalancesNonneg s0 := by
    intro j hj
    rw [h0a] at hj
    simp at hj
  have h := runNewTxs_preserves v calls s0 sF hrun hrb hbm
  exact ⟨h.1.2, fun hge => h.2 hge hnn⟩

/-- Witness for C2 (amended) on the concrete one-call coinbase run. -/
theorem C2_witness :
    BalancesMatchPool ⟨[⟨"B", 1⟩], [⟨.sentinel, .addr 0, 1, none, none, true⟩], [], []⟩ ∧
    ((∀ c ∈ [(⟨"0", "B", 1, none, none⟩ : Call)], 0 ≤ c.amount) →
      BalancesNonneg ⟨[⟨"B", 1⟩], [⟨.sentinel, .addr 0, 1, none, none, true⟩], [], []⟩) :=
  C2_amended noVerify [⟨"0", "B", 1, none, none⟩] ⟨[], [], [], []⟩
    ⟨[⟨"B", 1⟩], [⟨.sentinel, .addr 0, 1, none, none, true⟩], [], []⟩ rfl rfl rfl
